import Mathlib

/-!
Shallow embedding of `src/editor/convert/convert.js` (a Google-Sheets
HTML-export to `.wsheet` converter). Strings are modelled as `List Char`;
JavaScript regular-expression matching is modelled by equivalent
deterministic scanners (all the source's regexes have disjoint character
classes at every choice point, so maximal-munch scanning is exact).
JavaScript `parseFloat`/`Math.round` arithmetic is modelled exactly over
scaled natural numbers (the idealisation of binary floating point by exact
decimal arithmetic; all quantities involved are small decimals).
-/

namespace WConv

set_option maxRecDepth 20000

abbrev Str := List Char

def str (s : String) : Str := s.toList

/-- JS regex `\d`. -/
def isDigitC (c : Char) : Bool := 48 ≤ c.toNat && c.toNat ≤ 57

/-- JS regex `\s` (ASCII part; space, tab, LF, VT, FF, CR). -/
def isWsC (c : Char) : Bool :=
  c.toNat = 32 || c.toNat = 9 || c.toNat = 10 || c.toNat = 11 || c.toNat = 12 || c.toNat = 13

/-- JS regex `\w` : `[A-Za-z0-9_]`. -/
def isWordC (c : Char) : Bool :=
  isDigitC c || (65 ≤ c.toNat && c.toNat ≤ 90) || (97 ≤ c.toNat && c.toNat ≤ 122) || c.toNat = 95

/-- JS regex `[0-9a-f]` under the `i` flag. -/
def isHexC (c : Char) : Bool :=
  isDigitC c || (97 ≤ c.toNat && c.toNat ≤ 102) || (65 ≤ c.toNat && c.toNat ≤ 70)

/-- The character class `[\d.]` of the font-size regexes. -/
def isNumDot (c : Char) : Bool := isDigitC c || c.toNat = 46

def toLowerStr (s : Str) : Str := s.map Char.toLower

/-- JS `String.prototype.trim` (ASCII whitespace). -/
def trim (s : Str) : Str := ((s.dropWhile isWsC).reverse.dropWhile isWsC).reverse

/-- Numeric value of a decimal digit string (JS `parseInt` on an all-digit string). -/
def digitsVal (s : Str) : Nat := s.foldl (fun a c => a * 10 + (c.toNat - 48)) 0

/-- JS `parseFloat` restricted to strings over `[\d.]` (the only strings the
source applies it to): value is `num / den` with `den` a power of 10, reading
an integer part, then an optional fraction up to a second dot.  `none` models
`NaN` (no digit read). -/
def pfParts (d : Str) : Option (Nat × Nat) :=
  let ip := d.takeWhile isDigitC
  let rest := d.dropWhile isDigitC
  let fp := match rest with
    | c :: t => if c.toNat = 46 then t.takeWhile isDigitC else []
    | [] => []
  if ip = [] ∧ fp = [] then none
  else some (digitsVal ip * 10 ^ fp.length + digitsVal fp, 10 ^ fp.length)

/-- JS `Math.round (num/den * mulN/mulD)` for non-negative arguments:
round half up, i.e. `⌊x + 1/2⌋`, computed with exact integer arithmetic. -/
def jsRound (num den : Nat) : Nat := (2 * num + den) / (2 * den)

/-- The value `Math.round(parseFloat(d) * 1.333)` (the `pt` branch of `parsePtPx`);
`none` models `NaN`. -/
def roundPt (d : Str) : Option Nat :=
  (pfParts d).map (fun p => jsRound (p.1 * 1333) (p.2 * 1000))

/-- The value `Math.round(parseFloat(d))` (the `px` branch of `parsePtPx`); `none` models `NaN`. -/
def roundPx (d : Str) : Option Nat :=
  (pfParts d).map (fun p => jsRound p.1 p.2)

def numPart (v : Str) : Str := v.take (v.length - 2)

def sufPart (v : Str) : Str := v.drop (v.length - 2)

/-- Test of the regex `^([\d.]+)uu$` (with the `i` flag) for a two-character
unit `uu`: the whole string is a non-empty run over `[\d.]` followed by the
unit, case-insensitively. -/
def unitTest (v : Str) (u : Str) : Bool :=
  decide (3 ≤ v.length) && decide (toLowerStr (sufPart v) = u) && (numPart v).all isNumDot

/-- The function `parsePtPx(val)` of convert.js.  Result: `none` = `null`
(neither regex matched); `some none` = `NaN` (matched, but the captured
group holds no digit); `some (some n)` = the rounded pixel number. -/
def parsePtPx (v : Str) : Option (Option Nat) :=
  if unitTest v (str ("pt")) then some (roundPt (numPart v))
  else if unitTest v (str ("px")) then some (roundPx (numPart v))
  else none

/-- Test of `/^#[0-9a-f]{3,6}$/i` of `normColor`. -/
def hexTest (t : Str) : Bool :=
  match t with
  | c :: ds => c = '#' && decide (3 ≤ ds.length) && decide (ds.length ≤ 6) && ds.all isHexC
  | [] => false

/-- Case-insensitive literal matcher: `eatCI s lit` consumes `lit`
(given lower-case) from the front of `s`, comparing lower-cased. -/
def eatCI : Str → Str → Option Str
  | s, [] => some s
  | [], _ :: _ => none
  | c :: s, d :: l => if c.toLower = d then eatCI s l else none

/-- Case-sensitive literal matcher. -/
def eatLit : Str → Str → Option Str
  | s, [] => some s
  | [], _ :: _ => none
  | c :: s, d :: l => if c = d then eatLit s l else none

/-- The parser of `/^rgb\((\d+),\s*(\d+),\s*(\d+)\)$/i`, returning the three
captured digit groups: consume `rgb(` case-insensitively, a non-empty
greedy digit group, a comma, optional whitespace, a second group, a comma,
optional whitespace, a third group, and the closing parenthesis ending the
string.  Every boundary in the regex separates disjoint character classes,
so greedy scanning is exact. -/
def parseRgb (t : Str) : Option (Str × Str × Str) :=
  match eatCI t (str ("rgb(")) with
  | none => none
  | some s0 =>
    if s0.takeWhile isDigitC = [] then none else
    match s0.dropWhile isDigitC with
    | c1 :: s2 =>
      if c1 = ',' then
        if (s2.dropWhile isWsC).takeWhile isDigitC = [] then none else
        match (s2.dropWhile isWsC).dropWhile isDigitC with
        | c2 :: s5 =>
          if c2 = ',' then
            if (s5.dropWhile isWsC).takeWhile isDigitC = [] then none else
            if (s5.dropWhile isWsC).dropWhile isDigitC = [')'] then
              some (s0.takeWhile isDigitC, (s2.dropWhile isWsC).takeWhile isDigitC,
                (s5.dropWhile isWsC).takeWhile isDigitC)
            else none
          else none
        | [] => none
      else none
    | [] => none

/-- Lower-case hexadecimal digits of `n` (JS `Number.prototype.toString(16)`),
via fuel recursion. -/
def toHexAux : Nat → Nat → Str
  | 0, _ => []
  | f + 1, n =>
    if n < 16 then [Char.ofNat (if n < 10 then 48 + n else 87 + n)]
    else toHexAux f (n / 16) ++ [Char.ofNat (if n % 16 < 10 then 48 + n % 16 else 87 + n % 16)]

def toHexLower (n : Nat) : Str := toHexAux (n + 1) n

/-- JS `padStart(2, '0')`. -/
def pad2 (s : Str) : Str := List.replicate (2 - s.length) '0' ++ s

/-- One `rgb()` component rendered by `parseInt(n).toString(16).padStart(2, '0')`. -/
def hexByte (ds : Str) : Str := pad2 (toHexLower (digitsVal ds))

/-- The function `normColor(val)` of convert.js. -/
def normColor (v : Str) : Option Str :=
  let t := trim v
  if hexTest t then some (toLowerStr t)
  else match parseRgb t with
    | some (d1, d2, d3) => some ('#' :: (hexByte d1 ++ hexByte d2 ++ hexByte d3))
    | none => none

/-- JS `decls.split(';')` (single-character separator). -/
def splitOnChar (sep : Char) : Str → List Str
  | [] => [[]]
  | c :: t =>
    if c = sep then [] :: splitOnChar sep t
    else match splitOnChar sep t with
      | h :: r => (c :: h) :: r
      | [] => [[c]]

/-- Split a declaration at the first `:` (JS `indexOf(':')` plus two slices);
`none` when there is no colon. -/
def colonSplit (raw : Str) : Option (Str × Str) :=
  if raw.any (fun c => c = ':') then
    some (raw.takeWhile (fun c => c ≠ ':'), (raw.dropWhile (fun c => c ≠ ':')).tail)
  else none

/-- The style record built by `parseCssClass` (a JS object with optional keys;
`bold`/`italic` are only ever set to `true`, so presence is a `Bool`;
the four border keys are set to explicit booleans when present). -/
structure Style where
  bold : Bool := false
  italic : Bool := false
  color : Option Str := none
  bgColor : Option Str := none
  align : Option Str := none
  fontSize : Option Nat := none
  fontFamily : Option Str := none
  borderTop : Option Bool := none
  borderBottom : Option Bool := none
  borderLeft : Option Bool := none
  borderRight : Option Bool := none
deriving DecidableEq

/-- JS truthiness of an optional boolean (`undefined`/`false` falsy). -/
def obT : Option Bool → Bool
  | some true => true
  | _ => false

/-- Substring test (`String.prototype.includes`). -/
def hasSub (needle : Str) : Str → Bool
  | [] => needle.isEmpty
  | c :: s => needle.isPrefixOf (c :: s) || hasSub needle s

/-- The font-family list resolution: split on `,`, strip quote characters,
trim, take the first entry not starting (case-insensitively) with `docs-`,
with JS `|| families[0]` falling back when the found entry is empty (falsy). -/
def pickFamily (val : Str) : Str :=
  let families := (splitOnChar ',' val).map
    (fun f => trim (f.filter (fun c => c.toNat ≠ 34 && c.toNat ≠ 39)))
  match families.find? (fun f => !((str ("docs-")).isPrefixOf (toLowerStr f))) with
  | some f => if f = [] then families.headD [] else f
  | none => families.headD []

/-- The recognized-key dispatch of one declaration, on the already computed
`key` (lower-cased trimmed text before the colon), `val` (trimmed text after
it) and `vl` (lower-cased `val`). -/
def applyDecl1 (r : Style) (key val vl : Str) : Style :=
  if key = str ("font-weight") then (if vl = str ("bold") then { r with bold := true } else r)
    else if key = str ("font-style") then (if vl = str ("italic") then { r with italic := true } else r)
    else if key = str ("color") then
      (match normColor val with | some c => { r with color := some c } | none => r)
    else if key = str ("background-color") then
      (match normColor val with | some c => { r with bgColor := some c } | none => r)
    else if key = str ("text-align") then
      (if vl = str ("left") ∨ vl = str ("center") ∨ vl = str ("right")
       then { r with align := some vl } else r)
    else if key = str ("font-size") then
      (match parsePtPx val with
       | some (some n) => if n ≠ 0 then { r with fontSize := some n } else r
       | _ => r)
    else if key = str ("font-family") then { r with fontFamily := some (pickFamily val) }
    else if key = str ("border-top") then { r with borderTop := some (!(hasSub (str ("none")) vl)) }
    else if key = str ("border-bottom") then { r with borderBottom := some (!(hasSub (str ("none")) vl)) }
    else if key = str ("border-left") then { r with borderLeft := some (!(hasSub (str ("none")) vl)) }
    else if key = str ("border-right") then { r with borderRight := some (!(hasSub (str ("none")) vl)) }
    else r

/-- One iteration of the declaration loop of `parseCssClass`. -/
def applyDecl (r : Style) (raw : Str) : Style :=
  match colonSplit raw with
  | none => r
  | some (k0, v0) => applyDecl1 r (toLowerStr (trim k0)) (trim v0) (toLowerStr (trim v0))

/-- The function `parseCssClass(decls)` of convert.js. -/
def parseCssClass (decls : Str) : Style :=
  (splitOnChar ';' decls).foldl applyDecl {}

/-! ### HTML helpers -/

/-- Global replacement of the regex `<[^>]*>` by the empty string: at a `<`,
the match runs to the next `>` (if any); with no `>` ahead no further match
is possible anywhere.  Fuel recursion (each step consumes at least one
character). -/
def stripAngleF : Nat → Str → Str
  | 0, s => s
  | f + 1, s =>
    match s with
    | [] => []
    | c :: t =>
      if c = '<' then
        match t.dropWhile (fun ch => ch ≠ '>') with
        | _ :: after => stripAngleF f after
        | [] => c :: t
      else c :: stripAngleF f t

def stripAngle (s : Str) : Str := stripAngleF (s.length + 1) s

/-- JS `String.prototype.replace` with a global literal pattern: scan left to
right, non-overlapping, replacements not rescanned. -/
def replaceAllF : Nat → Str → Str → Str → Str
  | 0, _, _, s => s
  | f + 1, pat, rep, s =>
    match s with
    | [] => []
    | c :: t =>
      if pat ≠ [] ∧ pat.isPrefixOf (c :: t) then
        rep ++ replaceAllF f pat rep ((c :: t).drop pat.length)
      else c :: replaceAllF f pat rep t

def replaceAll (pat rep s : Str) : Str := replaceAllF (s.length + 1) pat rep s

/-- The function `stripTags(html)` of convert.js: remove tags, then the entity
substitutions in source order (`&nbsp;`, `&amp;`, `&lt;`, `&gt;`, `&quot;`,
`&#39;`), then trim. -/
def stripTags (html : Str) : Str :=
  trim (replaceAll (str ("&#39;")) (str ("\x27"))
    (replaceAll (str ("&quot;")) (str ("\""))
      (replaceAll (str ("&gt;")) (str (">"))
        (replaceAll (str ("&lt;")) (str ("<"))
          (replaceAll (str ("&amp;")) (str ("&"))
            (replaceAll (str ("&nbsp;")) (str (" "))
              (stripAngle html)))))))

/-- First case-insensitive occurrence of `needle` (given lower-case) in `s`:
returns the part before the occurrence and the part after it (the lazy-body
splitting step of `([\s\S]*?)` up to a literal closing marker). -/
def splitSubF : Nat → Str → Str → Option (Str × Str)
  | 0, _, _ => none
  | f + 1, needle, s =>
    match eatCI s needle with
    | some rest => some ([], rest)
    | none =>
      match s with
      | [] => none
      | c :: t => (splitSubF f needle t).map (fun pr => (c :: pr.1, pr.2))

def splitSub (needle s : Str) : Option (Str × Str) := splitSubF (s.length + 1) needle s

/-- Match of `<tag[^>]*>([\s\S]*?)</tag>` (flags `i`) at the current
position: returns (attributes, body, rest-after-match). -/
def tagMatchAt (tag : Str) (s : Str) : Option (Str × Str × Str) :=
  match eatCI s ('<' :: tag) with
  | none => none
  | some r1 =>
    let attrs := r1.takeWhile (fun c => c ≠ '>')
    match r1.dropWhile (fun c => c ≠ '>') with
    | _ :: r2 =>
      match splitSub ('<' :: '/' :: (tag ++ ['>'])) r2 with
      | some (body, after) => some (attrs, body, after)
      | none => none
    | [] => none

/-- Global scan with `tagMatchAt` (flag `g`): after a match continue after
it, otherwise advance one character. -/
def scanTagF (tag : Str) : Nat → Str → List (Str × Str)
  | 0, _ => []
  | f + 1, s =>
    match s with
    | [] => []
    | _ :: t =>
      match tagMatchAt tag s with
      | some (attrs, body, after) => (attrs, body) :: scanTagF tag f after
      | none => scanTagF tag f t

def scanTag (tag : Str) (s : Str) : List (Str × Str) := scanTagF tag (s.length + 1) s

/-- Match of the (case-sensitive) CSS rule regex
`\.waffle\s+\.(\w+)\s*\{([^}]*)\}` at the current position:
returns (class name, declaration list, rest-after-match). -/
def ruleMatchAt (s : Str) : Option (Str × Str × Str) :=
  match eatLit s (str (".waffle")) with
  | none => none
  | some r1 =>
    if r1.takeWhile isWsC = [] then none else
    match r1.dropWhile isWsC with
    | '.' :: r2 =>
      let name := r2.takeWhile isWordC
      if name = [] then none else
      match (r2.dropWhile isWordC).dropWhile isWsC with
      | c :: r3 =>
        if c.toNat = 123 then
          let decls := r3.takeWhile (fun ch => ch.toNat ≠ 125)
          match r3.dropWhile (fun ch => ch.toNat ≠ 125) with
          | _ :: after => some (name, decls, after)
          | [] => none
        else none
      | [] => none
    | _ => none

def scanRulesF : Nat → Str → List (Str × Str)
  | 0, _ => []
  | f + 1, s =>
    match s with
    | [] => []
    | _ :: t =>
      match ruleMatchAt s with
      | some (name, decls, after) => (name, decls) :: scanRulesF f after
      | none => scanRulesF f t

def scanRules (s : Str) : List (Str × Str) := scanRulesF (s.length + 1) s

/-- First match of `/<tbody>([\s\S]*?)<\/tbody>/i` over the whole document
(literal start marker, no attributes). -/
def findTbodyF : Nat → Str → Option Str
  | 0, _ => none
  | f + 1, s =>
    match s with
    | [] => none
    | _ :: t =>
      match eatCI s (str ("<tbody>")) with
      | some rest =>
        match splitSub (str ("</tbody>")) rest with
        | some (body, _) => some body
        | none => findTbodyF f t
      | none => findTbodyF f t

def findTbodyTop (src : Str) : Option Str := findTbodyF (src.length + 1) src

/-- The class-style map: built from every `<style>` block in document order,
every rule in order; a repeated class name overwrites (modelled by
last-entry-wins lookup). -/
def styleMapOf (src : Str) : List (Str × Style) :=
  ((((scanTag (str ("style")) src).map Prod.snd).map scanRules).flatten).map
    (fun nd => (nd.1, parseCssClass nd.2))

/-- JS object lookup for the accumulated style map (later assignments win). -/
def mapGet (m : List (Str × Style)) (k : Str) : Option Style :=
  m.foldl (fun acc p => if p.1 = k then some p.2 else acc) none

/-- Match of `/class=["']([^"']*)["']/i` at the current position. -/
def clsMatchAt (s : Str) : Option Str :=
  match eatCI s (str ("class=")) with
  | none => none
  | some r1 =>
    match r1 with
    | q :: r2 =>
      if q.toNat = 34 || q.toNat = 39 then
        let g := r2.takeWhile (fun c => c.toNat ≠ 34 && c.toNat ≠ 39)
        match r2.dropWhile (fun c => c.toNat ≠ 34 && c.toNat ≠ 39) with
        | _ :: _ => some g
        | [] => none
      else none
    | [] => none

def classAttrF : Nat → Str → Option Str
  | 0, _ => none
  | f + 1, s =>
    match s with
    | [] => none
    | _ :: t =>
      match clsMatchAt s with
      | some g => some g
      | none => classAttrF f t

/-- The cell's class token: the first `class=...` attribute's value, trimmed;
empty when absent. -/
def classAttr (attrs : Str) : Str :=
  match classAttrF (attrs.length + 1) attrs with
  | some g => trim g
  | none => []

/-- The per-cell format object `fmt` (keys added in source order; a key is
present only when the corresponding style attribute is truthy and, for the
two colors, differs from the black/white default). -/
structure CellFormat where
  bold : Bool := false
  italic : Bool := false
  color : Option Str := none
  bgColor : Option Str := none
  fontSize : Option Nat := none
  fontFamily : Option Str := none
  align : Option Str := none
deriving DecidableEq

def mkCellFormat (s : Style) : CellFormat where
  bold := s.bold
  italic := s.italic
  color := match s.color with
    | some c => if c ≠ str ("#000000") then some c else none
    | none => none
  bgColor := match s.bgColor with
    | some c => if c ≠ str ("#ffffff") then some c else none
    | none => none
  fontSize := match s.fontSize with
    | some n => if n ≠ 0 then some n else none
    | none => none
  fontFamily := match s.fontFamily with
    | some f => if f ≠ [] then some f else none
    | none => none
  align := match s.align with
    | some a => if a ≠ [] then some a else none
    | none => none

/-- The test `Object.keys(fmt).length` non-zero. -/
def fmtNonEmpty (f : CellFormat) : Bool :=
  f.bold || f.italic || f.color.isSome || f.bgColor.isSome
    || f.fontSize.isSome || f.fontFamily.isSome || f.align.isSome

structure CellBorders where
  top : Bool
  bottom : Bool
  left : Bool
  right : Bool
deriving DecidableEq

def mkBorders (s : Style) : CellBorders :=
  ⟨obT s.borderTop, obT s.borderBottom, obT s.borderLeft, obT s.borderRight⟩

def borderAny (s : Style) : Bool :=
  obT s.borderTop || obT s.borderBottom || obT s.borderLeft || obT s.borderRight

/-- Output of processing one row's `<td>` cells. -/
structure RowOut where
  texts : List Str
  fmts : List (Nat × CellFormat)
  brds : List (Nat × CellBorders)

/-- The cell loop of `convertHtml`: for each `<td>` (attributes, content)
pair at column index `colIdx`, push the stripped text and record the
format/border entries of a resolved class. -/
def processCellsAux (sm : List (Str × Style)) : List (Str × Str) → Nat → RowOut
  | [], _ => ⟨[], [], []⟩
  | (attrs, content) :: rest, colIdx =>
    let tailOut := processCellsAux sm rest (colIdx + 1)
    let text := stripTags content
    match mapGet sm (classAttr attrs) with
    | none => ⟨text :: tailOut.texts, tailOut.fmts, tailOut.brds⟩
    | some s =>
      let fmt := mkCellFormat s
      let fEntry := if fmtNonEmpty fmt then [(colIdx, fmt)] else []
      let bEntry := if borderAny s then [(colIdx, mkBorders s)] else []
      ⟨text :: tailOut.texts, fEntry ++ tailOut.fmts, bEntry ++ tailOut.brds⟩

/-- The converter's result object (before serialization): `version` is the
constant 1 and is left implicit; sparse maps are association lists in
ascending key order, exactly as the JS object accumulates them. -/
structure Doc where
  data : List (List Str)
  formats : List (Nat × List (Nat × CellFormat))
  borders : List (Nat × List (Nat × CellBorders))
deriving DecidableEq

/-- The row loop of `convertHtml`: `rowIdx` equals `aoa.length` at entry of
each iteration, i.e. the position index. -/
def buildRowsAux (sm : List (Str × Style)) : List Str → Nat → Doc
  | [], _ => ⟨[], [], []⟩
  | rowHtml :: rest, rowIdx =>
    let ro := processCellsAux sm (scanTag (str ("td")) rowHtml) 0
    let tailD := buildRowsAux sm rest (rowIdx + 1)
    ⟨ro.texts :: tailD.data,
     (if ro.fmts ≠ [] then [(rowIdx, ro.fmts)] else []) ++ tailD.formats,
     (if ro.brds ≠ [] then [(rowIdx, ro.brds)] else []) ++ tailD.borders⟩

def rowEmptyB (r : List Str) : Bool := r.all (fun v => v.isEmpty)

/-- The `lastRow` loop of step 4: starting from index `k - 1`, step down
while the row is all-empty; `-1` when all rows are empty. -/
def lastRowCalc (aoa : List (List Str)) : Nat → Int
  | 0 => -1
  | k + 1 => if rowEmptyB (aoa.getD k []) then lastRowCalc aoa k else (k : Int)

/-- The slice `aoa.slice(0, lastRow + 1)`. -/
def trimTrail (aoa : List (List Str)) : List (List Str) :=
  aoa.take ((lastRowCalc aoa aoa.length) + 1).toNat

/-- The function `convertHtml(filePath)` of convert.js, as a pure function of the
document text (file I/O and the diagnostic `console.log` are outside the
core).  The only `throw` is the missing-`<tbody>` structural error. -/
def convertHtml (src : Str) : Except Str Doc :=
  let sm := styleMapOf src
  match findTbodyTop src with
  | none => Except.error (str ("No <tbody> found"))
  | some tb =>
    let rows := (scanTag (str ("tr")) tb).map Prod.snd
    let acc := buildRowsAux sm rows 0
    Except.ok ⟨trimTrail acc.data, acc.formats, acc.borders⟩

/-! ### Serialization (`JSON.stringify` of the fixed result shape)

`JSON.stringify({ version: 1, data: trimmedData, formats, borders })`: keys
of an object literal serialize in insertion order; the integer-like keys of
`formats`/`borders` serialize in ascending numeric order, which is exactly
the order the association lists were built in. -/

def dquote : Char := Char.ofNat 34

def obrace : Char := Char.ofNat 123

def cbrace : Char := Char.ofNat 125

/-- Decimal digits of `n` (fuel recursion). -/
def toDecAux : Nat → Nat → Str
  | 0, _ => []
  | f + 1, n =>
    if n < 10 then [Char.ofNat (48 + n)]
    else toDecAux f (n / 10) ++ [Char.ofNat (48 + n % 10)]

def natToStr (n : Nat) : Str := toDecAux (n + 1) n

/-- The `JSON.stringify` escaping of one character. -/
def escChar (c : Char) : Str :=
  if c.toNat = 34 then str ("\\\"")
  else if c.toNat = 92 then str ("\\\\")
  else if c.toNat = 8 then str ("\\b")
  else if c.toNat = 9 then str ("\\t")
  else if c.toNat = 10 then str ("\\n")
  else if c.toNat = 12 then str ("\\f")
  else if c.toNat = 13 then str ("\\r")
  else if c.toNat < 32 then str ("\\u00") ++ pad2 (toHexLower c.toNat)
  else [c]

def jsonStr (s : Str) : Str := dquote :: ((s.map escChar).flatten ++ [dquote])

def jsonObj (fields : List Str) : Str := obrace :: (List.intercalate [','] fields ++ [cbrace])

def jsonArr (xs : List Str) : Str := '[' :: (List.intercalate [','] xs ++ [']'])

def boolStr (b : Bool) : Str := if b then str ("true") else str ("false")

def fmtFields (f : CellFormat) : List Str :=
  (if f.bold then [str ("\"bold\":true")] else [])
  ++ (if f.italic then [str ("\"italic\":true")] else [])
  ++ (match f.color with | some c => [str ("\"color\":") ++ jsonStr c] | none => [])
  ++ (match f.bgColor with | some c => [str ("\"bgColor\":") ++ jsonStr c] | none => [])
  ++ (match f.fontSize with | some n => [str ("\"fontSize\":") ++ natToStr n] | none => [])
  ++ (match f.fontFamily with | some c => [str ("\"fontFamily\":") ++ jsonStr c] | none => [])
  ++ (match f.align with | some c => [str ("\"align\":") ++ jsonStr c] | none => [])

def jsonFmtCell (f : CellFormat) : Str := jsonObj (fmtFields f)

def jsonBorderCell (b : CellBorders) : Str :=
  jsonObj [str ("\"top\":") ++ boolStr b.top, str ("\"bottom\":") ++ boolStr b.bottom,
    str ("\"left\":") ++ boolStr b.left, str ("\"right\":") ++ boolStr b.right]

def jsonInner {α : Type} (ser : α → Str) (row : List (Nat × α)) : Str :=
  jsonObj (row.map (fun p => jsonStr (natToStr p.1) ++ [':'] ++ ser p.2))

def jsonOuter {α : Type} (ser : α → Str) (m : List (Nat × List (Nat × α))) : Str :=
  jsonObj (m.map (fun p => jsonStr (natToStr p.1) ++ [':'] ++ jsonInner ser p.2))

/-- The serialized document returned by `convertHtml`. -/
def jsonOfDoc (d : Doc) : Str :=
  jsonObj [str ("\"version\":1"),
    str ("\"data\":") ++ jsonArr (d.data.map (fun r => jsonArr (r.map jsonStr))),
    str ("\"formats\":") ++ jsonOuter jsonFmtCell d.formats,
    str ("\"borders\":") ++ jsonOuter jsonBorderCell d.borders]

/-- End-to-end conversion to serialized text (`none` when the structural
error was thrown). -/
def convertSerialized (src : Str) : Option Str := (convertHtml src).toOption.map jsonOfDoc

/-! ### Spec-side definitions (written from the specification's words, for
the refinement-style claims) -/

/-- From the spec: a value whose trimmed form is `#` followed by hexadecimal
digits (the amended digit-count range `3..6`). -/
def HexShape (t : Str) : Prop :=
  ∃ ds : Str, t = '#' :: ds ∧ 3 ≤ ds.length ∧ ds.length ≤ 6 ∧ ds.all isHexC = true

/-- From the spec: a value of the form `rgb(r, g, b)` with decimal
components — a four-character `rgb(` opener (case-insensitive), three
non-empty decimal digit groups, a comma before the second and third group
each optionally followed by whitespace, and a closing parenthesis ending the
string. -/
def RgbShape (t d1 d2 d3 : Str) : Prop :=
  ∃ p w2 w3 : Str,
    toLowerStr p = str ("rgb(")
    ∧ d1 ≠ [] ∧ d1.all isDigitC = true
    ∧ d2 ≠ [] ∧ d2.all isDigitC = true
    ∧ d3 ≠ [] ∧ d3.all isDigitC = true
    ∧ w2.all isWsC = true ∧ w3.all isWsC = true
    ∧ t = p ++ d1 ++ [','] ++ w2 ++ d2 ++ [','] ++ w3 ++ d3 ++ [')']

/-- From the spec: a size value consisting of a numeric part (digits and
periods, at least one character) followed by the given two-character unit,
case-insensitively. -/
def UnitShape (v d u : Str) : Prop :=
  ∃ s2 : Str, v = d ++ s2 ∧ toLowerStr s2 = u ∧ s2.length = 2
    ∧ d ≠ [] ∧ d.all isNumDot = true

/-- From the spec: remove the maximal trailing suffix of rows whose every
cell's text is empty. -/
def dropTrailingEmptyRows (aoa : List (List Str)) : List (List Str) :=
  (aoa.reverse.dropWhile rowEmptyB).reverse

deriving instance DecidableEq for Except

/-- Number of rows collected by the row loop (before the trailing trim);
0 when the structural error fires. -/
def collectedRowCount (src : Str) : Nat :=
  match findTbodyTop src with
  | none => 0
  | some tb => (scanTag (str ("tr")) tb).length

/-- Invariant of every style record produced by `parseCssClass`: a stored
font size passed the truthiness guard (never 0), and a stored alignment is
one of the non-empty keywords. -/
def StyleInv (s : Style) : Prop := s.fontSize ≠ some 0 ∧ s.align ≠ some []

/-! ### Helper lemmas -/

theorem eatCI_of_map {p lit : Str} (rest : Str) (h : p.map Char.toLower = lit) :
    eatCI (p ++ rest) lit = some rest := by
  induction p generalizing lit with
  | nil => subst h; simp [eatCI]
  | cons c p ih => subst h; simp [eatCI, ih rfl]

theorem eatCI_decomp {s lit r : Str} (h : eatCI s lit = some r) :
    ∃ p : Str, s = p ++ r ∧ p.map Char.toLower = lit := by
  induction lit generalizing s with
  | nil =>
    refine ⟨[], ?_, rfl⟩
    cases s <;> simpa [eatCI] using h
  | cons d l ih =>
    cases s with
    | nil => simp [eatCI] at h
    | cons c s' =>
      rw [eatCI] at h
      split at h
      · obtain ⟨p, hp, hm⟩ := ih h
        rename_i hc
        exact ⟨c :: p, by simp [hp], by simp [hm, hc]⟩
      · simp at h

theorem takeWhile_all_append {α : Type} {p : α → Bool} {xs : List α} {y : α} (ys : List α)
    (hx : ∀ c ∈ xs, p c = true) (hy : p y = false) :
    (xs ++ y :: ys).takeWhile p = xs := by
  induction xs with
  | nil => simp [List.takeWhile_cons, hy]
  | cons c t ih =>
    simp only [List.cons_append, List.takeWhile_cons, hx c (by simp), if_true]
    rw [ih (fun a ha => hx a (by simp [ha]))]

theorem dropWhile_all_append {α : Type} {p : α → Bool} {xs : List α} {y : α} (ys : List α)
    (hx : ∀ c ∈ xs, p c = true) (hy : p y = false) :
    (xs ++ y :: ys).dropWhile p = y :: ys := by
  induction xs with
  | nil => simp [List.dropWhile_cons, hy]
  | cons c t ih =>
    simp only [List.cons_append, List.dropWhile_cons, hx c (by simp), if_true]
    exact ih (fun a ha => hx a (by simp [ha]))

theorem dropWhile_head_false {α : Type} {p : α → Bool} {l r : List α} {c : α}
    (h : l.dropWhile p = c :: r) : p c = false := by
  induction l with
  | nil => simp at h
  | cons a t ih =>
    rw [List.dropWhile_cons] at h
    split at h
    · exact ih h
    · cases h
      rename_i hc
      simpa using hc

theorem digit_not_ws {c : Char} (h : isDigitC c = true) : isWsC c = false := by
  simp only [isDigitC, Bool.and_eq_true, decide_eq_true_eq] at h
  simp only [isWsC, Bool.or_eq_false_iff, decide_eq_false_iff_not]
  omega
example : parsePtPx (str ("16px")) = some (some 16) := by decide
example : parsePtPx (str ("12em")) = none := by decide
example : normColor (str ("#FF0000")) = some (str ("#ff0000")) := by decide
example : normColor (str ("rgb(255, 0, 0)")) = some (str ("#ff0000")) := by decide
example : normColor (str ("blue")) = none := by decide
example : (parseCssClass (str ("font-weight:bold;color:#ff0000"))).bold = true := by decide
example : (parseCssClass (str ("font-family:docs-Foo, Arial, sans-serif"))).fontFamily
    = some (str ("Arial")) := by decide
example : (parseCssClass (str ("border-left: 1px solid #000"))).borderLeft = some true := by decide
example : (parseCssClass (str ("border-left: none"))).borderLeft = some false := by decide

example :
    convertHtml (str ("<tbody><tr><td>a</td></tr></tbody>"))
      = Except.ok ⟨[[str ("a")]], [], []⟩ := by decide

example :
    convertHtml (str ("<style>.waffle .s1\x7bfont-weight:bold;color:#ff0000\x7d</style><tbody><tr><td class=\"s1\">Hi</td><td>There</td></tr></tbody>"))
      = Except.ok ⟨[[str ("Hi"), str ("There")]],
          [(0, [(0, { bold := true, color := some (str ("#ff0000")) })])], []⟩ := by decide

example :
    convertHtml (str ("<tbody class=\"x\"><tr><td>a</td></tr></tbody>"))
      = Except.error (str ("No <tbody> found")) := by decide

/-! ### Claim theorems -/

/-- C9: cell-text extraction applies the entity replacements as sequential
textual substitutions after tag removal, with `&amp;` replaced before
`&lt;`, `&gt;`, `&quot;` and `&#39;`; hence the doubly-escaped `&amp;lt;`
decodes all the way to the character `<` (and likewise for the other three
entities), and tag removal happens first. -/
theorem c9_entity_order :
    stripTags (str ("&amp;lt;")) = str ("<")
    ∧ stripTags (str ("&amp;gt;")) = str (">")
    ∧ stripTags (str ("&amp;quot;")) = str ("\"")
    ∧ stripTags (str ("&amp;#39;")) = str ("\x27")
    ∧ stripTags (str ("<b>&amp;lt;</b>")) = str ("<")
    ∧ stripTags (str ("a &nbsp;&amp; <i>b</i>")) = str ("a  & b") := by
  decide

/-- C2: conversion of a single document fails if and only if no table-body
region is found, and the only error value is the structural
`No <tbody> found` message; every other input converts to a document
(the embedding of every other code path is total). -/
theorem c2_fatal_iff_no_tbody (src : Str) :
    ((∃ e, convertHtml src = Except.error e) ↔ findTbodyTop src = none)
    ∧ (convertHtml src = Except.error (str ("No <tbody> found"))
        ∨ ∃ d, convertHtml src = Except.ok d) := by
  cases h : findTbodyTop src <;> simp [convertHtml, h]

/-- C7: the conversion is a deterministic function of the document text —
on equal inputs the serialized output (fixed key order modelled by
`jsonOfDoc`) is identical. -/
theorem c7_deterministic (s₁ s₂ : Str) (h : s₁ = s₂) :
    convertSerialized s₁ = convertSerialized s₂ := by
  rw [h]

theorem c7_witness :
    convertSerialized (str ("<tbody><tr><td>a</td></tr></tbody>"))
      = convertSerialized (str ("<tbody><tr><td>a</td></tr></tbody>")) :=
  c7_deterministic _ _ rfl

theorem findTbodyF_none {f : Nat} :
    ∀ s : Str, (∀ n < s.length, (eatCI (s.drop n) (str ("<tbody>"))).isSome = false) →
    findTbodyF f s = none := by
  induction f with
  | zero => intro s _; rfl
  | succ f ih =>
    intro s h
    match s with
    | [] => rfl
    | c :: t =>
      have h0 := h 0 (by simp)
      rw [findTbodyF]
      cases he : eatCI (c :: t) (str ("<tbody>")) with
      | some rest => rw [List.drop_zero] at h0; rw [he] at h0; simp at h0
      | none =>
        exact ih t (fun n hn => by
          have := h (n + 1) (by simpa using Nat.succ_lt_succ hn)
          simpa using this)

/-- C10: the table-body region is recognized only by the literal
(attribute-free) start marker `<tbody>`: any document with no occurrence of
that exact marker — in particular one whose tbody start tag carries
attributes — raises the fatal structural error. -/
theorem c10_tbody_literal_only (src : Str)
    (h : ∀ n < src.length, (eatCI (src.drop n) (str ("<tbody>"))).isSome = false) :
    convertHtml src = Except.error (str ("No <tbody> found")) := by
  have ht : findTbodyTop src = none := findTbodyF_none src h
  simp [convertHtml, ht]

theorem c10_witness :
    convertHtml (str ("<tbody class=\"x\"><tr><td>a</td></tr></tbody>"))
      = Except.error (str ("No <tbody> found")) :=
  c10_tbody_literal_only _ (by decide)

/-- C8: a multi-token class attribute is looked up as one composite key:
the extracted class token for `class="s1 s2"` is the whole trimmed string
`"s1 s2"`; a style map holding the individual tokens `s1` and `s2` yields no
style (no format and no border entry for the cell), while a map holding the
exact composite key does. -/
theorem c8_composite_class (st : Style) :
    classAttr (str (" class=\"s1 s2\"")) = str ("s1 s2")
    ∧ mapGet [(str ("s1"), st), (str ("s2"), st)] (str ("s1 s2")) = none
    ∧ (processCellsAux [(str ("s1"), st), (str ("s2"), st)]
        [(str (" class=\"s1 s2\""), str ("x"))] 0).fmts = []
    ∧ (processCellsAux [(str ("s1"), st), (str ("s2"), st)]
        [(str (" class=\"s1 s2\""), str ("x"))] 0).brds = []
    ∧ mapGet [(str ("s1 s2"), st)] (str ("s1 s2")) = some st := by
  refine ⟨by decide, rfl, rfl, rfl, rfl⟩

theorem take_append_le {α : Type} : ∀ (n : Nat) (l l2 : List α), n ≤ l.length →
    (l ++ l2).take n = l.take n
  | 0, _, _, _ => by simp
  | n + 1, [], _, h => by simp at h
  | n + 1, a :: t, l2, h => by
    simp only [List.cons_append, List.take_succ_cons]
    rw [take_append_le n t l2 (by simpa using h)]

theorem lastRowCalc_lt (aoa : List (List Str)) : ∀ k : Nat, lastRowCalc aoa k < (k : Int) := by
  intro k
  induction k with
  | zero => simp [lastRowCalc]
  | succ k ih =>
    rw [lastRowCalc]
    split
    · omega
    · omega

theorem lastRowCalc_append {l : List (List Str)} (r : List Str) :
    ∀ k, k ≤ l.length → lastRowCalc (l ++ [r]) k = lastRowCalc l k := by
  intro k
  induction k with
  | zero => intro _; rfl
  | succ k ih =>
    intro hk
    rw [lastRowCalc, lastRowCalc, List.getD_append _ _ _ _ (by omega), ih (by omega)]

theorem trimTrail_eq (aoa : List (List Str)) : trimTrail aoa = dropTrailingEmptyRows aoa := by
  induction aoa using List.reverseRecOn with
  | nil => rfl
  | append_singleton l r ih =>
    have hg : (l ++ [r]).getD l.length [] = r := by
      rw [List.getD_append_right _ _ _ _ (le_refl _)]
      simp
    by_cases hr : rowEmptyB r = true
    · have h1 : lastRowCalc (l ++ [r]) (l ++ [r]).length = lastRowCalc l l.length := by
        rw [List.length_append]
        simp only [List.length_singleton]
        rw [lastRowCalc, hg, if_pos hr, lastRowCalc_append r l.length (le_refl _)]
      have hlt := lastRowCalc_lt l l.length
      unfold trimTrail dropTrailingEmptyRows
      rw [h1, take_append_le _ _ _ (by omega), List.reverse_append]
      simp only [List.reverse_singleton, List.singleton_append, List.dropWhile_cons_of_pos hr]
      exact ih
    · have h1 : lastRowCalc (l ++ [r]) (l ++ [r]).length = (l.length : Int) := by
        rw [List.length_append]
        simp only [List.length_singleton]
        rw [lastRowCalc, hg, if_neg hr]
      unfold trimTrail dropTrailingEmptyRows
      rw [h1, show ((l.length : Int) + 1).toNat = l.length + 1 by omega,
        List.take_of_length_le (by simp), List.reverse_append]
      simp only [List.reverse_singleton, List.singleton_append,
        List.dropWhile_cons_of_neg (by simpa using hr)]
      simp

/-- C5: the emitted data equals the collected row list with the maximal
trailing suffix of all-empty rows removed — the loop-with-index computation
(`trimTrail`) coincides with the spec's suffix removal
(`dropTrailingEmptyRows`); the retained rows are literally a prefix of the
collected list (so earlier all-empty rows are preserved as-is), the removed
suffix is all-empty, and removal is maximal (the retained list is empty or
ends in a non-empty row). -/
theorem c5_trim_trailing (aoa : List (List Str)) :
    trimTrail aoa = dropTrailingEmptyRows aoa
    ∧ aoa = trimTrail aoa ++ (aoa.reverse.takeWhile rowEmptyB).reverse
    ∧ ((aoa.reverse.takeWhile rowEmptyB).reverse).all rowEmptyB = true
    ∧ (trimTrail aoa = [] ∨ ∃ pre lst, trimTrail aoa = pre ++ [lst] ∧ rowEmptyB lst = false) := by
  refine ⟨trimTrail_eq aoa, ?_, ?_, ?_⟩
  · rw [trimTrail_eq, dropTrailingEmptyRows]
    conv_lhs => rw [← List.reverse_reverse aoa,
      ← List.takeWhile_append_dropWhile (p := rowEmptyB) (l := aoa.reverse)]
    rw [List.reverse_append]
  · rw [List.all_eq_true]
    intro x hx
    rw [List.mem_reverse] at hx
    exact List.mem_takeWhile_imp hx
  · rw [trimTrail_eq, dropTrailingEmptyRows]
    cases hd : aoa.reverse.dropWhile rowEmptyB with
    | nil => left; rfl
    | cons c cs =>
      right
      exact ⟨cs.reverse, c, by simp, dropWhile_head_false hd⟩

theorem buildRows_key_lt (sm : List (Str × Style)) :
    ∀ (rows : List Str) (i k : Nat),
      (k ∈ (buildRowsAux sm rows i).formats.map Prod.fst → k < i + rows.length)
      ∧ (k ∈ (buildRowsAux sm rows i).borders.map Prod.fst → k < i + rows.length) := by
  intro rows
  induction rows with
  | nil =>
    intro i k
    constructor <;> intro h <;> simp [buildRowsAux] at h
  | cons row rest ih =>
    intro i k
    constructor <;> intro h <;>
      rw [buildRowsAux] at h <;>
      simp only [List.map_append, List.mem_append] at h
    · rcases h with h | h
      · split at h
        · simp at h
          simp only [List.length_cons]
          omega
        · simp at h
      · have := (ih (i + 1) k).1 h
        simp only [List.length_cons]
        omega
    · rcases h with h | h
      · split at h
        · simp at h
          simp only [List.length_cons]
          omega
        · simp at h
      · have := (ih (i + 1) k).2 h
        simp only [List.length_cons]
        omega

/-- C1 (amended): every key of the emitted formats/borders maps is a valid
index of the *collected* (pre-trim) row list.  (The original claim — that
keys are below the *trimmed* row count — fails, see the counterexample: a
trailing all-empty-text row whose cell carries a styled class is trimmed
from `data` yet keeps its formats entry.) -/
theorem c1_formats_within_collected (src : Str) (d : Doc)
    (h : convertHtml src = Except.ok d) :
    (∀ k ∈ d.formats.map Prod.fst, k < collectedRowCount src)
    ∧ (∀ k ∈ d.borders.map Prod.fst, k < collectedRowCount src) := by
  unfold convertHtml at h
  cases ht : findTbodyTop src with
  | none => rw [ht] at h; simp at h
  | some tb =>
    rw [ht] at h
    simp only [Except.ok.injEq] at h
    subst h
    constructor
    · intro k hk
      have := (buildRows_key_lt (styleMapOf src)
        ((scanTag (str ("tr")) tb).map Prod.snd) 0 k).1 hk
      simpa [collectedRowCount, ht] using this
    · intro k hk
      have := (buildRows_key_lt (styleMapOf src)
        ((scanTag (str ("tr")) tb).map Prod.snd) 0 k).2 hk
      simpa [collectedRowCount, ht] using this

/-- C1 counterexample: a document whose only row is all-empty-text but
styled.  The trailing trim removes the row (`data = []`, trimmed row count
0), yet the formats map keeps an entry keyed by row index 0 — an entry at a
row index at/beyond the trimmed row count, refuting the claim as stated. -/
theorem c1_counterexample :
    (convertHtml (str ("<style>.waffle .s1\x7bfont-weight:bold\x7d</style><tbody><tr><td class=\"s1\"></td></tr></tbody>"))).toOption.map
        (fun d => (d.data.length, d.formats.map Prod.fst, d.borders.map Prod.fst))
      = some (0, [0], []) := by
  decide

theorem c1_witness :
    (∀ k ∈ (Doc.mk [[str ("x")]]
        [(0, [(0, { bold := true })])] []).formats.map Prod.fst,
      k < collectedRowCount (str ("<style>.waffle .s1\x7bfont-weight:bold\x7d</style><tbody><tr><td class=\"s1\">x</td></tr></tbody>")))
    ∧ (∀ k ∈ (Doc.mk [[str ("x")]]
        [(0, [(0, { bold := true })])] []).borders.map Prod.fst,
      k < collectedRowCount (str ("<style>.waffle .s1\x7bfont-weight:bold\x7d</style><tbody><tr><td class=\"s1\">x</td></tr></tbody>"))) :=
  c1_formats_within_collected _ _ (by decide)

theorem applyDecl1_inv {r : Style} {key val vl : Str} (hr : StyleInv r) :
    StyleInv (applyDecl1 r key val vl) := by
  obtain ⟨hf, ha⟩ := hr
  unfold applyDecl1
  by_cases h1 : key = str ("font-weight")
  · rw [if_pos h1]
    by_cases h : vl = str ("bold")
    · rw [if_pos h]; exact ⟨hf, ha⟩
    · rw [if_neg h]; exact ⟨hf, ha⟩
  rw [if_neg h1]
  by_cases h2 : key = str ("font-style")
  · rw [if_pos h2]
    by_cases h : vl = str ("italic")
    · rw [if_pos h]; exact ⟨hf, ha⟩
    · rw [if_neg h]; exact ⟨hf, ha⟩
  rw [if_neg h2]
  by_cases h3 : key = str ("color")
  · rw [if_pos h3]
    cases normColor val
    · exact ⟨hf, ha⟩
    · exact ⟨hf, ha⟩
  rw [if_neg h3]
  by_cases h4 : key = str ("background-color")
  · rw [if_pos h4]
    cases normColor val
    · exact ⟨hf, ha⟩
    · exact ⟨hf, ha⟩
  rw [if_neg h4]
  by_cases h5 : key = str ("text-align")
  · rw [if_pos h5]
    by_cases h : vl = str ("left") ∨ vl = str ("center") ∨ vl = str ("right")
    · rw [if_pos h]
      refine ⟨hf, fun hc => ?_⟩
      have hv := Option.some.inj hc
      rcases h with h | h | h <;> rw [h] at hv <;> exact absurd hv (by decide)
    · rw [if_neg h]; exact ⟨hf, ha⟩
  rw [if_neg h5]
  by_cases h6 : key = str ("font-size")
  · rw [if_pos h6]
    cases parsePtPx val with
    | none => exact ⟨hf, ha⟩
    | some o =>
      cases o with
      | none => exact ⟨hf, ha⟩
      | some n =>
        dsimp only
        by_cases hz : n = 0
        · rw [if_neg (fun hne => hne hz)]; exact ⟨hf, ha⟩
        · rw [if_pos hz]
          exact ⟨fun hc => hz (Option.some.inj hc), ha⟩
  rw [if_neg h6]
  by_cases h7 : key = str ("font-family")
  · rw [if_pos h7]; exact ⟨hf, ha⟩
  rw [if_neg h7]
  by_cases h8 : key = str ("border-top")
  · rw [if_pos h8]; exact ⟨hf, ha⟩
  rw [if_neg h8]
  by_cases h9 : key = str ("border-bottom")
  · rw [if_pos h9]; exact ⟨hf, ha⟩
  rw [if_neg h9]
  by_cases h10 : key = str ("border-left")
  · rw [if_pos h10]; exact ⟨hf, ha⟩
  rw [if_neg h10]
  by_cases h11 : key = str ("border-right")
  · rw [if_pos h11]; exact ⟨hf, ha⟩
  rw [if_neg h11]
  exact ⟨hf, ha⟩

theorem applyDecl_inv {r : Style} (raw : Str) (hr : StyleInv r) :
    StyleInv (applyDecl r raw) := by
  obtain ⟨hf, ha⟩ := hr
  unfold applyDecl
  split
  · exact ⟨hf, ha⟩
  · exact applyDecl1_inv ⟨hf, ha⟩

theorem parseCssClass_inv (decls : Str) : StyleInv (parseCssClass decls) := by
  unfold parseCssClass
  have step : ∀ (l : List Str) (r : Style), StyleInv r → StyleInv (l.foldl applyDecl r) := by
    intro l
    induction l with
    | nil => intro r hr; exact hr
    | cons a t ih => intro r hr; exact ih _ (applyDecl_inv a hr)
  exact step _ _ ⟨by simp, by simp⟩

theorem mkCellFormat_fields {s : Style} (hfs : s.fontSize ≠ some 0) (hal : s.align ≠ some []) :
    ((mkCellFormat s).bold = s.bold)
    ∧ ((mkCellFormat s).italic = s.italic)
    ∧ (∀ c, (mkCellFormat s).color = some c ↔ s.color = some c ∧ c ≠ str ("#000000"))
    ∧ (∀ c, (mkCellFormat s).bgColor = some c ↔ s.bgColor = some c ∧ c ≠ str ("#ffffff"))
    ∧ (∀ n, (mkCellFormat s).fontSize = some n ↔ s.fontSize = some n)
    ∧ (∀ f, (mkCellFormat s).fontFamily = some f ↔ s.fontFamily = some f ∧ f ≠ [])
    ∧ (∀ a, (mkCellFormat s).align = some a ↔ s.align = some a) := by
  refine ⟨rfl, rfl, ?_, ?_, ?_, ?_, ?_⟩
  · intro c
    cases hc : s.color with
    | none => simp [mkCellFormat, hc]
    | some c0 =>
      by_cases hb : c0 = str ("#000000") <;>
        simp only [mkCellFormat, hc, ne_eq, hb, not_true_eq_false, if_false, if_neg,
          not_false_eq_true, if_true, if_pos, Option.some.injEq]
      · constructor
        · intro h; exact absurd h (by simp)
        · rintro ⟨rfl, hcc⟩; exact absurd rfl hcc
      · constructor
        · intro h; exact ⟨h, h ▸ hb⟩
        · intro h; exact h.1
  · intro c
    cases hc : s.bgColor with
    | none => simp [mkCellFormat, hc]
    | some c0 =>
      by_cases hb : c0 = str ("#ffffff") <;>
        simp only [mkCellFormat, hc, ne_eq, hb, not_true_eq_false, if_false, if_neg,
          not_false_eq_true, if_true, if_pos, Option.some.injEq]
      · constructor
        · intro h; exact absurd h (by simp)
        · rintro ⟨rfl, hcc⟩; exact absurd rfl hcc
      · constructor
        · intro h; exact ⟨h, h ▸ hb⟩
        · intro h; exact h.1
  · intro n
    cases hn : s.fontSize with
    | none => simp [mkCellFormat, hn]
    | some m =>
      have hm : m ≠ 0 := fun hz => hfs (by rw [hn, hz])
      simp [mkCellFormat, hn, hm]
  · intro f
    cases hf : s.fontFamily with
    | none => simp [mkCellFormat, hf]
    | some f0 =>
      by_cases hb : f0 = [] <;>
        simp only [mkCellFormat, hf, ne_eq, hb, not_true_eq_false, if_false, if_neg,
          not_false_eq_true, if_true, if_pos, Option.some.injEq]
      · constructor
        · intro h; exact absurd h (by simp)
        · rintro ⟨rfl, hcc⟩; exact absurd rfl hcc
      · constructor
        · intro h; exact ⟨h, h ▸ hb⟩
        · intro h; exact h.1
  · intro a
    cases ha : s.align with
    | none => simp [mkCellFormat, ha]
    | some a0 =>
      have hm : a0 ≠ [] := fun hz => hal (by rw [ha, hz])
      simp [mkCellFormat, ha, hm]

theorem processCells_fmts_nonEmpty (sm : List (Str × Style)) :
    ∀ (cells : List (Str × Str)) (i col : Nat) (g : CellFormat),
      (col, g) ∈ (processCellsAux sm cells i).fmts → fmtNonEmpty g = true := by
  intro cells
  induction cells with
  | nil => intro i col g h; simp [processCellsAux] at h
  | cons cell rest ih =>
    intro i col g h
    obtain ⟨attrs, content⟩ := cell
    rw [processCellsAux] at h
    cases hm : mapGet sm (classAttr attrs) with
    | none =>
      rw [hm] at h
      exact ih _ _ _ h
    | some st =>
      rw [hm] at h
      dsimp only at h
      rw [List.mem_append] at h
      rcases h with h | h
      · split at h
        · rename_i hne
          rw [List.mem_singleton, Prod.mk.injEq] at h
          rw [h.2]
          exact hne
        · simp at h
      · exact ih _ _ _ h

/-- C4 (amended): for a style record resolved from CSS declarations, the
emitted CellFormat includes the text color exactly when present and not the
default black, the background color exactly when present and not the default
white; bold, italic, fontSize and align are included exactly when present;
fontFamily is included exactly when present AND non-empty (the one
divergence forced by the counterexample: an empty `font-family:` value is
stored as a present-but-empty family, which the truthiness test then drops);
and an empty CellFormat never produces a formats entry. -/
theorem c4_cellformat_characterization (decls : Str) :
    ((mkCellFormat (parseCssClass decls)).bold = (parseCssClass decls).bold)
    ∧ ((mkCellFormat (parseCssClass decls)).italic = (parseCssClass decls).italic)
    ∧ (∀ c, (mkCellFormat (parseCssClass decls)).color = some c ↔
        (parseCssClass decls).color = some c ∧ c ≠ str ("#000000"))
    ∧ (∀ c, (mkCellFormat (parseCssClass decls)).bgColor = some c ↔
        (parseCssClass decls).bgColor = some c ∧ c ≠ str ("#ffffff"))
    ∧ (∀ n, (mkCellFormat (parseCssClass decls)).fontSize = some n ↔
        (parseCssClass decls).fontSize = some n)
    ∧ (∀ f, (mkCellFormat (parseCssClass decls)).fontFamily = some f ↔
        (parseCssClass decls).fontFamily = some f ∧ f ≠ [])
    ∧ (∀ a, (mkCellFormat (parseCssClass decls)).align = some a ↔
        (parseCssClass decls).align = some a)
    ∧ (∀ (sm : List (Str × Style)) (cells : List (Str × Str)) (i col : Nat) (g : CellFormat),
        (col, g) ∈ (processCellsAux sm cells i).fmts → fmtNonEmpty g = true) := by
  obtain ⟨hfs, hal⟩ := parseCssClass_inv decls
  obtain ⟨b1, b2, b3, b4, b5, b6, b7⟩ := mkCellFormat_fields hfs hal
  exact ⟨b1, b2, b3, b4, b5, b6, b7, processCells_fmts_nonEmpty⟩

/-- C4 counterexample: the declaration list `font-family:` resolves to a
style record whose fontFamily IS present (the empty string), yet the emitted
CellFormat omits it — refuting "fontFamily is included whenever present
regardless of its value". -/
theorem c4_counterexample :
    (parseCssClass (str ("font-family:"))).fontFamily = some []
    ∧ (mkCellFormat (parseCssClass (str ("font-family:")))).fontFamily = none := by
  decide

theorem c4_witness : fmtNonEmpty { bold := true } = true :=
  (c4_cellformat_characterization []).2.2.2.2.2.2.2
    [(str ("s1"), { bold := true })] [(str ("class=\"s1\""), str ("x"))] 0 0
    { bold := true } (by decide)

theorem unitShape_parts {v d u : Str} (h : UnitShape v d u) :
    numPart v = d ∧ toLowerStr (sufPart v) = u ∧ unitTest v u = true := by
  obtain ⟨s2, hv, hlow, hlen, hne, hall⟩ := h
  subst hv
  have hdl : (d ++ s2).length - 2 = d.length := by
    rw [List.length_append, hlen]
    omega
  have hnum : numPart (d ++ s2) = d := by
    rw [numPart, hdl, List.take_left]
  have hsuf : sufPart (d ++ s2) = s2 := by
    rw [sufPart, hdl, List.drop_left]
  have hdpos : 0 < d.length := List.length_pos.mpr hne
  refine ⟨hnum, by rw [hsuf]; exact hlow, ?_⟩
  simp only [unitTest, Bool.and_eq_true, decide_eq_true_eq]
  exact ⟨⟨by rw [List.length_append, hlen]; omega, by rw [hsuf]; exact hlow⟩,
    by rw [hnum]; exact hall⟩

theorem unitTest_shape {v u : Str} (h : unitTest v u = true) : UnitShape v (numPart v) u := by
  simp only [unitTest, Bool.and_eq_true, decide_eq_true_eq] at h
  obtain ⟨⟨h3, hsuf⟩, hall⟩ := h
  refine ⟨sufPart v, (List.take_append_drop _ v).symm, hsuf, ?_, ?_, hall⟩
  · rw [sufPart, List.length_drop]
    omega
  · rw [numPart]
    intro hnil
    have hlen := congrArg List.length hnil
    rw [List.length_take] at hlen
    simp only [List.length_nil] at hlen
    omega

/-- C6 (amended): the font-size value grammar accepted by the code is a
non-empty string over digits AND periods followed (case-insensitively) by
`pt` or `px` — the numeric part is then read with `parseFloat` semantics
(leading decimal prefix; no digit at all gives NaN): `pt` yields
`round(value × 1.333)`, `px` yields `round(value)`, anything else is
unparsable (`null`); and a null/NaN/zero result leaves the fontSize
property of the style record unset.  (The original claim's "a decimal
number followed by pt/px, any other format unparsable" fails on inputs such
as `12.5.5pt` — see the counterexample.) -/
theorem c6_fontsize_characterization (v : Str) :
    (∀ d, UnitShape v d (str ("pt")) → parsePtPx v = some (roundPt d))
    ∧ (∀ d, UnitShape v d (str ("px")) → parsePtPx v = some (roundPx d))
    ∧ ((∀ d, ¬ UnitShape v d (str ("pt"))) → (∀ d, ¬ UnitShape v d (str ("px"))) →
        parsePtPx v = none)
    ∧ (∀ (r : Style) (val : Str),
        (parsePtPx (trim val) = none ∨ parsePtPx (trim val) = some none
          ∨ parsePtPx (trim val) = some (some 0)) →
        (applyDecl r (str ("font-size:") ++ val)).fontSize = r.fontSize) := by
  refine ⟨?_, ?_, ?_, ?_⟩
  · intro d h
    obtain ⟨hnum, _, htest⟩ := unitShape_parts h
    rw [parsePtPx, if_pos htest, hnum]
  · intro d h
    obtain ⟨hnum, hsuf, htest⟩ := unitShape_parts h
    have hpt : unitTest v (str ("pt")) = false := by
      simp only [unitTest, hsuf]
      simp
      intro _ hq
      exact absurd hq (by decide)
    rw [parsePtPx, if_neg (by simp [hpt]), if_pos htest, hnum]
  · intro hpt hpx
    cases ht : unitTest v (str ("pt")) with
    | true => exact absurd (unitTest_shape ht) (hpt _)
    | false =>
      cases hx : unitTest v (str ("px")) with
      | true => exact absurd (unitTest_shape hx) (hpx _)
      | false => rw [parsePtPx, if_neg (by simp [ht]), if_neg (by simp [hx])]
  · intro r val hcase
    have hsplit : colonSplit (str ("font-size:") ++ val) = some (str ("font-size"), val) := by
      rw [show str ("font-size:")
          = 'f' :: 'o' :: 'n' :: 't' :: '-' :: 's' :: 'i' :: 'z' :: 'e' :: ':' :: [] from rfl]
      simp [colonSplit, List.takeWhile_cons, List.dropWhile_cons]
      rfl
    rw [applyDecl, hsplit]
    dsimp only
    rw [show toLowerStr (trim (str ("font-size"))) = str ("font-size") from rfl]
    rw [applyDecl1, if_neg (by decide), if_neg (by decide), if_neg (by decide),
      if_neg (by decide), if_neg (by decide), if_pos (by decide)]
    rcases hcase with h | h | h <;> (rw [h]; try rfl)

/-- C6 counterexample: `12.5.5pt` is not "a decimal number followed by pt",
yet the code parses it (parseFloat reads the leading `12.5`) and stores
fontSize 17 = round(12.5 × 1.333) instead of omitting the property. -/
theorem c6_counterexample :
    parsePtPx (str ("12.5.5pt")) = some (some 17)
    ∧ (parseCssClass (str ("font-size:12.5.5pt"))).fontSize = some 17 := by
  decide

theorem c6_witness :
    parsePtPx (str ("12pt")) = some (roundPt (str ("12")))
    ∧ parsePtPx (str ("16px")) = some (roundPx (str ("16"))) :=
  ⟨(c6_fontsize_characterization (str ("12pt"))).1 (str ("12"))
      ⟨str ("pt"), by decide, by decide, by decide, by decide, by decide⟩,
    (c6_fontsize_characterization (str ("16px"))).2.1 (str ("16"))
      ⟨str ("px"), by decide, by decide, by decide, by decide, by decide⟩⟩

theorem skipWs {w : Str} (hw : ∀ c ∈ w, isWsC c = true) {d rest : Str}
    (hd : ∀ c ∈ d, isDigitC c = true) (hne : d ≠ []) :
    (w ++ (d ++ rest)).dropWhile isWsC = d ++ rest := by
  obtain ⟨e, dt, rfl⟩ := List.exists_cons_of_ne_nil hne
  rw [List.cons_append]
  exact dropWhile_all_append _ hw (digit_not_ws (hd e (by simp)))

theorem hexTest_shape {t : Str} (h : hexTest t = true) : HexShape t := by
  cases t with
  | nil => simp [hexTest] at h
  | cons c ds =>
    simp only [hexTest, Bool.and_eq_true, decide_eq_true_eq] at h
    obtain ⟨⟨⟨hc, h3⟩, h6⟩, hall⟩ := h
    exact ⟨ds, by rw [hc], h3, h6, hall⟩

theorem shape_hexTest {t : Str} (h : HexShape t) : hexTest t = true := by
  obtain ⟨ds, rfl, h3, h6, hall⟩ := h
  simp [hexTest, h3, h6, hall]

theorem rgbShape_not_hex {t d1 d2 d3 : Str} (h : RgbShape t d1 d2 d3) :
    hexTest t = false := by
  obtain ⟨p, w2, w3, hplow, _, _, _, _, _, _, _, _, ht⟩ := h
  subst ht
  cases p with
  | nil => exact absurd hplow (by decide)
  | cons c p' =>
    have hc : c.toLower = 'r' := by
      have hh := congrArg List.head? hplow
      rw [show List.head? (str ("rgb(")) = some 'r' from rfl] at hh
      simp only [toLowerStr, List.map_cons, List.head?_cons] at hh
      exact Option.some.inj hh
    have hne : c ≠ '#' := by
      intro hh
      rw [hh] at hc
      exact absurd hc (by decide)
    rw [List.cons_append]
    simp [hexTest, hne]

theorem parseRgb_complete {t d1 d2 d3 : Str} (h : RgbShape t d1 d2 d3) :
    parseRgb t = some (d1, d2, d3) := by
  obtain ⟨p, w2, w3, hplow, h1ne, h1all, h2ne, h2all, h3ne, h3all, hw2, hw3, ht⟩ := h
  subst ht
  have h1mem := List.all_eq_true.mp h1all
  have h2mem := List.all_eq_true.mp h2all
  have h3mem := List.all_eq_true.mp h3all
  have hw2mem := List.all_eq_true.mp hw2
  have hw3mem := List.all_eq_true.mp hw3
  unfold parseRgb
  simp only [List.append_assoc, List.singleton_append, List.cons_append, List.nil_append]
  rw [eatCI_of_map _ hplow]
  dsimp only
  rw [takeWhile_all_append _ h1mem (by decide), if_neg h1ne,
    dropWhile_all_append _ h1mem (by decide)]
  dsimp only
  rw [if_pos rfl, skipWs hw2mem h2mem h2ne,
    takeWhile_all_append _ h2mem (by decide), if_neg h2ne,
    dropWhile_all_append _ h2mem (by decide)]
  dsimp only
  rw [if_pos rfl, skipWs hw3mem h3mem h3ne,
    takeWhile_all_append _ h3mem (by decide), if_neg h3ne,
    dropWhile_all_append _ h3mem (by decide), if_pos rfl]

theorem parseRgb_sound {t d1 d2 d3 : Str} (h : parseRgb t = some (d1, d2, d3)) :
    RgbShape t d1 d2 d3 := by
  unfold parseRgb at h
  cases he : eatCI t (str ("rgb(")) with
  | none => rw [he] at h; simp at h
  | some s0 =>
    rw [he] at h
    dsimp only at h
    by_cases h1 : s0.takeWhile isDigitC = []
    · rw [if_pos h1] at h; simp at h
    rw [if_neg h1] at h
    cases hdw : s0.dropWhile isDigitC with
    | nil => rw [hdw] at h; simp at h
    | cons c1 s2 =>
      rw [hdw] at h
      dsimp only at h
      by_cases hc1 : c1 = ','
      case neg => rw [if_neg hc1] at h; simp at h
      rw [if_pos hc1] at h
      by_cases h2 : (s2.dropWhile isWsC).takeWhile isDigitC = []
      · rw [if_pos h2] at h; simp at h
      rw [if_neg h2] at h
      cases hdw2 : (s2.dropWhile isWsC).dropWhile isDigitC with
      | nil => rw [hdw2] at h; simp at h
      | cons c2 s5 =>
        rw [hdw2] at h
        dsimp only at h
        by_cases hc2 : c2 = ','
        case neg => rw [if_neg hc2] at h; simp at h
        rw [if_pos hc2] at h
        by_cases h3 : (s5.dropWhile isWsC).takeWhile isDigitC = []
        · rw [if_pos h3] at h; simp at h
        rw [if_neg h3] at h
        by_cases h4 : (s5.dropWhile isWsC).dropWhile isDigitC = [')']
        case neg => rw [if_neg h4] at h; simp at h
        rw [if_pos h4] at h
        simp only [Option.some.injEq, Prod.mk.injEq] at h
        obtain ⟨hd1, hd2, hd3⟩ := h
        subst hc1
        subst hc2
        subst hd1
        subst hd2
        subst hd3
        obtain ⟨p, hp, hmap⟩ := eatCI_decomp he
        refine ⟨p, s2.takeWhile isWsC, s5.takeWhile isWsC, hmap,
          h1, List.all_eq_true.mpr (fun x hx => List.mem_takeWhile_imp hx),
          h2, List.all_eq_true.mpr (fun x hx => List.mem_takeWhile_imp hx),
          h3, List.all_eq_true.mpr (fun x hx => List.mem_takeWhile_imp hx),
          List.all_eq_true.mpr (fun x hx => List.mem_takeWhile_imp hx),
          List.all_eq_true.mpr (fun x hx => List.mem_takeWhile_imp hx), ?_⟩
        have e0 : s0 = s0.takeWhile isDigitC ++ (',' :: s2) := by
          conv_lhs => rw [← List.takeWhile_append_dropWhile (p := isDigitC) (l := s0)]
          rw [hdw]
        have e2 : s2 = s2.takeWhile isWsC ++ s2.dropWhile isWsC :=
          (List.takeWhile_append_dropWhile _ _).symm
        have e3 : s2.dropWhile isWsC
            = (s2.dropWhile isWsC).takeWhile isDigitC ++ (',' :: s5) := by
          conv_lhs => rw [← List.takeWhile_append_dropWhile (p := isDigitC)
            (l := s2.dropWhile isWsC)]
          rw [hdw2]
        have e5 : s5 = s5.takeWhile isWsC ++ s5.dropWhile isWsC :=
          (List.takeWhile_append_dropWhile _ _).symm
        have e6 : s5.dropWhile isWsC
            = (s5.dropWhile isWsC).takeWhile isDigitC ++ [')'] := by
          conv_lhs => rw [← List.takeWhile_append_dropWhile (p := isDigitC)
            (l := s5.dropWhile isWsC)]
          rw [h4]
        rw [hp]
        conv_lhs => rw [e0]
        conv_lhs => rw [e2]
        conv_lhs => rw [e3]
        conv_lhs => rw [e5]
        conv_lhs => rw [e6]
        simp [List.append_assoc]

/-- C3 (amended): color normalization accepts a 3- TO 6-digit hex value
with leading `#` (returned lower-cased as-is), and an `rgb(r, g, b)` value
whose decimal components are each rendered as lower-case hexadecimal
zero-padded to at least two digits (`hexByte`; components above 255 produce
more than two digits); any other (trimmed) value is unparsable, so the
color/background-color property is omitted.  (The original "3- or 6-digit"
and "one 2-digit hex byte per component" both fail — see the
counterexample.) -/
theorem c3_normColor_characterization (v : Str) :
    (HexShape (trim v) → normColor v = some (toLowerStr (trim v)))
    ∧ (∀ d1 d2 d3, RgbShape (trim v) d1 d2 d3 →
        normColor v = some ('#' :: (hexByte d1 ++ hexByte d2 ++ hexByte d3)))
    ∧ ((¬ HexShape (trim v)) → (∀ d1 d2 d3, ¬ RgbShape (trim v) d1 d2 d3) →
        normColor v = none) := by
  refine ⟨?_, ?_, ?_⟩
  · intro h
    unfold normColor
    rw [if_pos (shape_hexTest h)]
  · intro d1 d2 d3 h
    unfold normColor
    rw [if_neg (by simp [rgbShape_not_hex h]), parseRgb_complete h]
  · intro hh hr
    unfold normColor
    cases hx : hexTest (trim v) with
    | true => exact absurd (hexTest_shape hx) hh
    | false =>
      rw [if_neg (by simp [hx])]
      cases hp : parseRgb (trim v) with
      | some tri =>
        obtain ⟨a, b, c⟩ := tri
        exact absurd (parseRgb_sound hp) (hr a b c)
      | none => rfl

/-- C3 counterexample: `#abcd` is neither a 3- nor a 6-digit hex value, yet
the code accepts it (the regex allows 3..6 digits); and `rgb(300, 0, 0)`
yields a three-digit component `12c`, not a 2-digit byte. -/
theorem c3_counterexample :
    normColor (str ("#abcd")) = some (str ("#abcd"))
    ∧ normColor (str ("rgb(300, 0, 0)")) = some (str ("#12c0000")) := by
  decide

theorem c3_witness :
    normColor (str ("#AbC")) = some (toLowerStr (trim (str ("#AbC"))))
    ∧ normColor (str ("rgb(255, 0, 0)"))
      = some ('#' :: (hexByte (str ("255")) ++ hexByte (str ("0")) ++ hexByte (str ("0")))) :=
  ⟨(c3_normColor_characterization (str ("#AbC"))).1
      ⟨str ("AbC"), by decide, by decide, by decide, by decide⟩,
    (c3_normColor_characterization (str ("rgb(255, 0, 0)"))).2.1
      (str ("255")) (str ("0")) (str ("0"))
      ⟨str ("rgb("), [' '], [' '], by decide, by decide, by decide, by decide,
        by decide, by decide, by decide, by decide, by decide, by decide⟩⟩

end WConv
